import Mathlib

/-!
Verification of the ainedit command driver (src/ainedit/ainedit.c) from the
alice-tools repository.  The C code is shallowly embedded: `parse_version`,
the bounded input queue (`push_input`), and the control flow of
`command_ain_edit` (option processing, project mode, container
creation/opening, transcode mode, the edit dispatch loop, and the final
write) are modelled as pure Lean functions.  External collaborators
(`ain_open`, `ain_write`, `asm_assemble_jam`, `jaf_build`, `read_text`,
`read_declarations`, `ain_transcode`, `pje_build`,
`ain_init_member_functions`) are modelled as events recorded in a trace;
`ain_open` is the only one whose success or failure feeds back into the
control flow, so it is supplied as an environment parameter.
-/

/-- Character classified as whitespace by C `isspace` in the "C" locale,
used by `atoi` to skip a leading run of blanks. -/
def isSpaceC (c : Char) : Bool :=
  c = ' ' || c = '\t' || c = '\n' || c = '\x0b' || c = '\x0c' || c = '\r'

/-- Accumulate the value of a leading run of decimal digits, stopping at the
first non-digit, as C `atoi` does after sign handling. -/
def digitsVal : List Char → Nat → Nat
  | [], acc => acc
  | c :: cs, acc =>
    if c.isDigit then digitsVal cs (acc * 10 + (c.toNat - '0'.toNat)) else acc

/-- C `atoi`: skip leading whitespace, consume an optional sign, then the
longest leading run of decimal digits; everything after is ignored and an
input with no leading digits yields 0.  (Overflow cannot occur here: callers
only pass strings of at most 2 characters.) -/
def atoi (s : List Char) : Int :=
  match s.dropWhile isSpaceC with
  | [] => 0
  | c :: rest =>
    if c = '-' then -(digitsVal rest 0 : Int)
    else if c = '+' then (digitsVal rest 0 : Int)
    else (digitsVal (c :: rest) 0 : Int)

/-- Index of the first '.' in the string, as C `strchr(str, '.')` computes
(`none` models a NULL return). -/
def idxOfDot : List Char → Option Nat
  | [] => none
  | c :: cs => if c = '.' then some 0 else (idxOfDot cs).map (· + 1)

/-- Embedding of `parse_version` (ainedit.c lines 45-69).  With a first dot
at index `i`: fail if `i > 2` or more than 2 characters follow the dot,
otherwise `atoi` the two pieces.  Without a dot: fail if the string is
longer than 2 characters, otherwise `atoi` the whole string with minor 0.
`none` models `return false`. -/
def parse_version (str : List Char) : Option (Int × Int) :=
  match idxOfDot str with
  | some i =>
    if i > 2 then none
    else if str.length - (i + 1) > 2 then none
    else some (atoi (str.take i), atoi (str.drop (i + 1)))
  | none =>
    if str.length > 2 then none
    else some (atoi str, 0)

/-- Number of bytes written into each of the two 3-byte stack buffers
(`major_str`, `minor_str`) on the path `parse_version` actually takes, in
program order.  In the dot branch `strncpy` writes `i` bytes and the manual
terminator one more, then `strcpy(minor_str, dot+1)` writes the suffix plus
its terminator; in the no-dot branch `strcpy(major_str, str)` writes
`strlen(str)+1` bytes and `strcpy(minor_str, "0")` writes 2.  Paths that
return `false` before copying contribute no writes. -/
def parse_version_copy_lens (str : List Char) : List Nat :=
  match idxOfDot str with
  | some i =>
    if i > 2 then []
    else if str.length - (i + 1) > 2 then []
    else [i + 1, (str.length - (i + 1)) + 1]
  | none =>
    if str.length > 2 then []
    else [str.length + 1, 2]

/-- Artifact kind of one queued edit input (enum `input_type`). -/
inductive InputType where
  | IN_CODE
  | IN_JAF
  | IN_TEXT
  | IN_DECL
deriving DecidableEq, Repr

/-- One queued edit request (struct `input`): a kind and a file path. -/
structure Input where
  type : InputType
  filename : String
deriving DecidableEq, Repr

/-- Fatal errors `command_ain_edit` can raise (each is an `ALICE_ERROR` or
`USAGE_ERROR` call site, which terminates the process). -/
inductive RunError where
  | tooManyInputs
  | invalidVersionParse
  | invalidVersionRange
  | tooManyArguments
  | openFailed (msg : String)
deriving DecidableEq, Repr

/-- Embedding of `push_input` (ainedit.c lines 86-94) over the queue as a
list: the guard `nr_inputs >= 256` fires before any element is stored, so on
failure the returned queue is the untouched original. -/
def push_input (q : List Input) (t : InputType) (f : String) :
    List Input × Option RunError :=
  if 256 ≤ q.length then (q, some RunError.tooManyInputs)
  else (q ++ [{ type := t, filename := f }], none)

/-- Push a whole batch of requests in order, stopping at the first fatal
error (an `ALICE_ERROR` never returns). -/
def pushMany (q : List Input) : List (InputType × String) → List Input × Option RunError
  | [] => (q, none)
  | (t, f) :: rest =>
    match push_input q t f with
    | (q1, none) => pushMany q1 rest
    | (q1, some e) => (q1, some e)

/-- Raw-mode flag ORed into `flags` by the `--raw` option.  Modelled from
the spec: `ASM_RAW` is declared in a header outside the excerpt; only its
presence in the flags word matters here, not its numeric value. -/
def ASM_RAW : Nat := 1

/-- Command-line options of the `ain edit` command, already paired with
their arguments (the `getopt` loop cases of ainedit.c lines 111-160). -/
inductive Opt where
  | project (arg : String)
  | code (arg : String)
  | jaf (arg : String)
  | json (arg : String)
  | text (arg : String)
  | transcodeOpt (arg : String)
  | output (arg : String)
  | raw
  | ainVersion (arg : List Char)
  | silent
deriving DecidableEq, Repr

/-- Mutable state of the option-processing loop: the local variables of
`command_ain_edit` together with the file-scope input queue and the global
encoding and silence settings. -/
structure OptState where
  project_file : Option String
  output_file : Option String
  major_version : Int
  minor_version : Int
  transcode : Bool
  flags : Nat
  inputs : List Input
  input_encoding : String
  output_encoding : String
  silent : Bool
deriving DecidableEq, Repr

/-- State at entry of the option loop (ainedit.c lines 101-109): default
version 4.0, no project or output file, empty queue, input encoding UTF-8
and output encoding CP932. -/
def initState : OptState :=
  { project_file := none, output_file := none,
    major_version := 4, minor_version := 0,
    transcode := false, flags := 0, inputs := [],
    input_encoding := "UTF-8", output_encoding := "CP932", silent := false }

/-- The `--ain-version` case of the option loop (ainedit.c lines 148-155).
`parse_version` stores into `major_version`/`minor_version` before the
range check runs, matching the C order of operations; both failure cases
are fatal but raise distinct diagnostics. -/
def processVersionOpt (st : OptState) (arg : List Char) : OptState × Option RunError :=
  match parse_version arg with
  | none => (st, some RunError.invalidVersionParse)
  | some (M, N) =>
    if M < 4 ∨ M > 14 then
      ({ st with major_version := M, minor_version := N }, some RunError.invalidVersionRange)
    else
      ({ st with major_version := M, minor_version := N }, none)

/-- One iteration of the option loop. -/
def processOpt (st : OptState) (o : Opt) : OptState × Option RunError :=
  match o with
  | Opt.project arg => ({ st with project_file := some arg }, none)
  | Opt.code arg =>
    match push_input st.inputs InputType.IN_CODE arg with
    | (q, e) => ({ st with inputs := q }, e)
  | Opt.jaf arg =>
    match push_input st.inputs InputType.IN_JAF arg with
    | (q, e) => ({ st with inputs := q }, e)
  | Opt.json arg =>
    match push_input st.inputs InputType.IN_DECL arg with
    | (q, e) => ({ st with inputs := q }, e)
  | Opt.text arg =>
    match push_input st.inputs InputType.IN_TEXT arg with
    | (q, e) => ({ st with inputs := q }, e)
  | Opt.transcodeOpt arg =>
    ({ st with transcode := true, input_encoding := "CP932", output_encoding := arg }, none)
  | Opt.output arg => ({ st with output_file := some arg }, none)
  | Opt.raw => ({ st with flags := st.flags ||| ASM_RAW }, none)
  | Opt.ainVersion arg => processVersionOpt st arg
  | Opt.silent => ({ st with silent := true }, none)

/-- Run the whole option loop, stopping at the first fatal error. -/
def processOpts (st : OptState) : List Opt → OptState × Option RunError
  | [] => (st, none)
  | o :: os =>
    match processOpt st o with
    | (st1, none) => processOpts st1 os
    | (st1, some e) => (st1, some e)

/-- Observable calls `command_ain_edit` makes to its collaborators, plus
the two warnings it can emit.  Image-bearing events carry the (major,
minor) version of the in-memory image they act on. -/
inductive Event where
  | warnInputsIgnoredProject
  | warnInputsIgnoredTranscode
  | pjeBuild (proj : String) (major minor : Int)
  | ainNew (major minor : Int)
  | ainOpen (path : String) (major minor : Int)
  | initMemberFunctions
  | ainTranscode (major minor : Int)
  | asmAssembleJam (file : String) (flags : Nat)
  | jafBuild (file : String)
  | readText (file : String)
  | readDeclarations (file : String)
  | ainWrite (path : String) (major minor : Int)
deriving DecidableEq, Repr

/-- Environment: the outcome of `ain_open` on each path — either the
(major, minor) version stored in the file, or the diagnostic that
`ain_strerror` would produce. -/
structure Env where
  openResult : String → Except String (Int × Int)

/-- Collaborator call made by one iteration of the dispatch loop
(ainedit.c lines 199-214), routed by the request's kind; only the
assembler receives the flags word. -/
def dispatchEvent (flags : Nat) (inp : Input) : Event :=
  match inp.type with
  | InputType.IN_CODE => Event.asmAssembleJam inp.filename flags
  | InputType.IN_JAF => Event.jafBuild inp.filename
  | InputType.IN_TEXT => Event.readText inp.filename
  | InputType.IN_DECL => Event.readDeclarations inp.filename

/-- Tail of the run once an image of version (iM, iN) exists, with the
calls that produced it already in `pre`: `ain_init_member_functions`, then
either the transcode branch (warning if the queue is non-empty, transcode,
jump to the write label) or the dispatch loop over the queue in order,
then `ain_write`. -/
def runWithImage (st : OptState) (outp : String) (pre : List Event) (iM iN : Int) :
    List Event × Option RunError :=
  if st.transcode then
    (pre ++ [Event.initMemberFunctions] ++
      (if 0 < st.inputs.length then [Event.warnInputsIgnoredTranscode] else []) ++
      [Event.ainTranscode iM iN, Event.ainWrite outp iM iN], none)
  else
    (pre ++ [Event.initMemberFunctions] ++ st.inputs.map (dispatchEvent st.flags) ++
      [Event.ainWrite outp iM iN], none)

/-- Opening an existing container (ainedit.c lines 184-187): `ain_open`
failure is fatal with the collaborator's diagnostic; on success the file's
own stored version (sM, sN) is the image's version — the caller-requested
version is not consulted. -/
def openStep (env : Env) (st : OptState) (p : String) : List Event × Option RunError :=
  match env.openResult p with
  | Except.error msg => ([], some (RunError.openFailed msg))
  | Except.ok (sM, sN) =>
    runWithImage st (st.output_file.getD "out.ain") [Event.ainOpen p sM sN] sM sN

/-- Body of `command_ain_edit` after the option loop (ainedit.c lines
161-221): reject more than one positional argument; in project mode warn
if any inputs were queued and hand off to `pje_build` with the requested
version; otherwise default the output path, create a fresh image at the
requested version when no positional path is given or open the file via
`openStep`, and continue with `runWithImage`. -/
def runAfterOpts (env : Env) (st : OptState) (positional : List String) :
    List Event × Option RunError :=
  if 1 < positional.length then ([], some RunError.tooManyArguments)
  else
    match st.project_file with
    | some proj =>
      ((if 0 < st.inputs.length then [Event.warnInputsIgnoredProject] else []) ++
        [Event.pjeBuild proj st.major_version st.minor_version], none)
    | none =>
      match positional with
      | [] =>
        runWithImage st (st.output_file.getD "out.ain")
          [Event.ainNew st.major_version st.minor_version]
          st.major_version st.minor_version
      | p :: _ => openStep env st p

/-- Embedding of `command_ain_edit` (ainedit.c lines 96-221): the option
loop followed by the pipeline, producing the trace of collaborator calls
and warnings up to the first fatal error, and that error if any. -/
def command_ain_edit (env : Env) (opts : List Opt) (positional : List String) :
    List Event × Option RunError :=
  match processOpts initState opts with
  | (_, some e) => ([], some e)
  | (st, none) => runAfterOpts env st positional

/-- Environment in which every `ain_open` fails with a fixed diagnostic. -/
def envFail : Env := ⟨fun _ => Except.error "invalid ain file"⟩

/-- Environment in which every `ain_open` succeeds with stored version 8.2. -/
def envOk : Env := ⟨fun _ => Except.ok (8, 2)⟩

/-! Helper lemmas about digit characters and `atoi`. -/

/-- A decimal digit is not C whitespace. -/
theorem digit_not_space {c : Char} (hc : c.isDigit = true) : isSpaceC c = false := by
  rcases Bool.eq_false_or_eq_true (isSpaceC c) with h | h
  · exfalso
    unfold isSpaceC at h
    simp only [Bool.or_eq_true, decide_eq_true_eq] at h
    rcases h with ((((h | h) | h) | h) | h) | h <;> (subst h; exact absurd hc (by decide))
  · exact h

/-- A decimal digit differs from any concrete non-digit character. -/
theorem digit_ne_char {c : Char} (hc : c.isDigit = true) {d : Char}
    (hd : d.isDigit = false) : c ≠ d := by
  intro h
  rw [h, hd] at hc
  exact Bool.false_ne_true hc

/-- On a non-empty all-digit string, `atoi` is exactly the digit fold:
there is no whitespace to skip and no sign to consume. -/
theorem atoi_digits {c : Char} {cs : List Char}
    (h : ∀ x ∈ c :: cs, x.isDigit = true) :
    atoi (c :: cs) = (digitsVal (c :: cs) 0 : Int) := by
  have hc : c.isDigit = true := h c (List.mem_cons_self c cs)
  have hsp : isSpaceC c = false := digit_not_space hc
  have hm : c ≠ '-' := digit_ne_char hc (by decide)
  have hp : c ≠ '+' := digit_ne_char hc (by decide)
  unfold atoi
  rw [List.dropWhile_cons, if_neg (by simp [hsp])]
  simp [hm, hp]

/-- `idxOfDot` finds nothing in a dot-free string. -/
theorem idxOfDot_eq_none {l : List Char} (h : ∀ c ∈ l, c ≠ '.') :
    idxOfDot l = none := by
  induction l with
  | nil => rfl
  | cons c cs ih =>
    unfold idxOfDot
    rw [if_neg (h c (List.mem_cons_self c cs)),
      ih (fun x hx => h x (List.mem_cons_of_mem c hx))]
    rfl

/-- `idxOfDot` finds the dot separating a dot-free prefix from the rest. -/
theorem idxOfDot_append {M N : List Char} (h : ∀ c ∈ M, c ≠ '.') :
    idxOfDot (M ++ '.' :: N) = some M.length := by
  induction M with
  | nil => simp [idxOfDot]
  | cons c cs ih =>
    simp only [List.cons_append]
    unfold idxOfDot
    rw [if_neg (h c (List.mem_cons_self c cs)),
      ih (fun x hx => h x (List.mem_cons_of_mem c hx))]
    rfl

/-- Taking the length of the left part of an append returns it. -/
theorem take_len_append (M N : List Char) : (M ++ N).take M.length = M := by
  induction M with
  | nil => rfl
  | cons c cs ih => simp [ih]

/-- Dropping past a one-element separator returns the right part. -/
theorem drop_len_succ_append (M : List Char) (c : Char) (N : List Char) :
    (M ++ c :: N).drop (M.length + 1) = N := by
  induction M with
  | nil => simp
  | cons a as ih => simp [ih]

/-- C1 counterexample: the claim says inputs containing non-digit
characters, or more than one dot, fail with a parse error.  In the code the
only checks are length checks: "aa" has no dot and length 2, so it is
accepted and `atoi` yields (0, 0); "4.." has its first dot at index 1 with
a 1-character suffix ".", so it is accepted and yields (4, 0) even though
it contains two dots. -/
theorem c1_counterexample :
    parse_version ['a', 'a'] = some (0, 0) ∧
    parse_version ['4', '.', '.'] = some (4, 0) := by
  exact ⟨rfl, rfl⟩

/-- C1 (amended): for well-formed numerals "M" or "M.N" with components of
1-2 decimal digits, `parse_version` returns (M, 0) or (M, N); and it fails
exactly when the length guards fire: no dot and more than 2 characters, or
first dot at index greater than 2, or more than 2 characters after the
first dot.  Inputs within those length bounds that contain non-digit
characters or further dots are accepted with C `atoi` semantics. -/
theorem c1_parse_version_amended :
    (∀ M : List Char, M ≠ [] → M.length ≤ 2 → (∀ c ∈ M, c.isDigit = true) →
        parse_version M = some ((digitsVal M 0 : Int), 0)) ∧
    (∀ M N : List Char, M ≠ [] → M.length ≤ 2 → (∀ c ∈ M, c.isDigit = true) →
        N ≠ [] → N.length ≤ 2 → (∀ c ∈ N, c.isDigit = true) →
        parse_version (M ++ '.' :: N) =
          some ((digitsVal M 0 : Int), (digitsVal N 0 : Int))) ∧
    (∀ s : List Char, parse_version s = none ↔
        (match idxOfDot s with
         | some i => 2 < i ∨ 2 < s.length - (i + 1)
         | none => 2 < s.length)) := by
  refine ⟨?_, ?_, ?_⟩
  · intro M hne hlen hdig
    have hdot : ∀ c ∈ M, c ≠ '.' := fun c hc => digit_ne_char (hdig c hc) (by decide)
    unfold parse_version
    rw [idxOfDot_eq_none hdot, if_neg (by omega)]
    cases M with
    | nil => exact absurd rfl hne
    | cons c cs => rw [atoi_digits hdig]
  · intro M N hMne hMlen hMdig hNne hNlen hNdig
    have hdot : ∀ c ∈ M, c ≠ '.' := fun c hc => digit_ne_char (hMdig c hc) (by decide)
    have hidx := idxOfDot_append (N := N) hdot
    unfold parse_version
    rcases hd : idxOfDot (M ++ '.' :: N) with _ | i
    · rw [hd] at hidx
      exact Option.noConfusion hidx
    · rw [hd] at hidx
      injection hidx with hi
      subst hi
      have hlen2 : (M ++ '.' :: N).length - (M.length + 1) = N.length := by
        simp
        omega
      show (if M.length > 2 then none
            else if (M ++ '.' :: N).length - (M.length + 1) > 2 then none
            else some (atoi ((M ++ '.' :: N).take M.length),
              atoi ((M ++ '.' :: N).drop (M.length + 1)))) =
          some ((digitsVal M 0 : Int), (digitsVal N 0 : Int))
      rw [if_neg (by omega), hlen2, if_neg (by omega),
        take_len_append M ('.' :: N), drop_len_succ_append M '.' N]
      obtain ⟨c, cs, rfl⟩ : ∃ c cs, M = c :: cs := by
        cases M with
        | nil => exact absurd rfl hMne
        | cons c cs => exact ⟨c, cs, rfl⟩
      obtain ⟨d, ds, rfl⟩ : ∃ d ds, N = d :: ds := by
        cases N with
        | nil => exact absurd rfl hNne
        | cons d ds => exact ⟨d, ds, rfl⟩
      rw [atoi_digits hMdig, atoi_digits hNdig]
  · intro s
    unfold parse_version
    rcases hd : idxOfDot s with _ | i
    · by_cases h1 : s.length > 2 <;> simp [h1]
    · by_cases h1 : i > 2
      · simp [h1]
      · by_cases h2 : s.length - (i + 1) > 2 <;> simp [h1, h2]

/-- C1 witness: concrete instances of the amended theorem — "14" parses to
(14, 0), "14.3" parses to (14, 3), and "123" fails because it has no dot
and more than 2 characters. -/
theorem c1_witness :
    parse_version ['1', '4'] = some (14, 0) ∧
    parse_version ['1', '4', '.', '3'] = some (14, 3) ∧
    (parse_version ['1', '2', '3'] = none ↔
      2 < (['1', '2', '3'] : List Char).length) :=
  ⟨c1_parse_version_amended.1 ['1', '4'] (by decide) (by decide) (by decide),
   c1_parse_version_amended.2.1 ['1', '4'] ['3'] (by decide) (by decide) (by decide)
     (by decide) (by decide) (by decide),
   c1_parse_version_amended.2.2 ['1', '2', '3']⟩

/-- C10: on every input, every byte count written into the two 3-byte
buffers `major_str` and `minor_str` is at most 3 (at most 2 characters plus
a terminator), because each copy is dominated by a preceding length guard
that returns failure first. -/
theorem c10_no_buffer_overflow :
    ∀ (str : List Char) (n : Nat), n ∈ parse_version_copy_lens str → n ≤ 3 := by
  intro str n hn
  unfold parse_version_copy_lens at hn
  rcases hd : idxOfDot str with _ | i
  · rw [hd] at hn
    by_cases h1 : str.length > 2
    · simp [h1] at hn
    · simp [h1] at hn
      omega
  · rw [hd] at hn
    by_cases h1 : i > 2
    · simp [h1] at hn
    · by_cases h2 : str.length - (i + 1) > 2
      · simp [h1, h2] at hn
      · simp [h1, h2] at hn
        omega

/-- C10 witness: on input "4.2" the copies write 2 bytes each, within the
3-byte bound. -/
theorem c10_witness :
    2 ∈ parse_version_copy_lens ['4', '.', '2'] ∧ 2 ≤ 3 :=
  ⟨by decide, c10_no_buffer_overflow ['4', '.', '2'] 2 (by decide)⟩

/-- Pushing a batch that keeps the queue within capacity succeeds and
appends the requests in order. -/
theorem pushMany_within_capacity :
    ∀ (rs : List (InputType × String)) (q : List Input),
      q.length + rs.length ≤ 256 →
      pushMany q rs =
        (q ++ rs.map (fun r => ({ type := r.1, filename := r.2 } : Input)), none) := by
  intro rs
  induction rs with
  | nil =>
    intro q h
    simp [pushMany]
  | cons r rest ih =>
    intro q h
    obtain ⟨t, f⟩ := r
    have hlt : ¬ 256 ≤ q.length := by
      simp at h
      omega
    unfold pushMany push_input
    rw [if_neg hlt]
    show pushMany (q ++ [{ type := t, filename := f }]) rest = _
    have h3 : (q ++ [({ type := t, filename := f } : Input)]).length + rest.length ≤ 256 := by
      simp at h ⊢
      omega
    rw [ih _ h3]
    simp

/-- The queue never exceeds capacity, whatever is pushed. -/
theorem pushMany_length_le :
    ∀ (rs : List (InputType × String)) (q : List Input),
      q.length ≤ 256 → ((pushMany q rs).1).length ≤ 256 := by
  intro rs
  induction rs with
  | nil =>
    intro q h
    simpa [pushMany] using h
  | cons r rest ih =>
    intro q h
    obtain ⟨t, f⟩ := r
    unfold pushMany push_input
    by_cases hfull : 256 ≤ q.length
    · rw [if_pos hfull]
      exact h
    · rw [if_neg hfull]
      exact ih _ (by simp; omega)

/-- C7: starting from the empty queue, pushing up to 256 requests succeeds
with each push appending one request, so the final length equals the number
of pushes; the queue length never exceeds the capacity 256; and a push onto
a full queue fails with the capacity error, leaving the queue contents
untouched (the guard fires before any element is stored). -/
theorem c7_queue_capacity :
    (∀ rs : List (InputType × String), rs.length ≤ 256 →
        pushMany [] rs =
          (rs.map (fun r => ({ type := r.1, filename := r.2 } : Input)), none) ∧
        ((pushMany [] rs).1).length = rs.length) ∧
    (∀ (q : List Input) (rs : List (InputType × String)),
        q.length ≤ 256 → ((pushMany q rs).1).length ≤ 256) ∧
    (∀ (q : List Input) (t : InputType) (f : String), q.length = 256 →
        push_input q t f = (q, some RunError.tooManyInputs)) := by
  refine ⟨?_, ?_, ?_⟩
  · intro rs h
    have he := pushMany_within_capacity rs [] (by simpa using h)
    refine ⟨by simpa using he, ?_⟩
    rw [he]
    simp
  · intro q rs h
    exact pushMany_length_le rs q h
  · intro q t f h
    unfold push_input
    rw [if_pos (by omega)]

set_option maxRecDepth 4000

/-- C7 witness: pushing 256 concrete requests from empty succeeds with
length 256, and one more push on the resulting full queue fails with the
capacity error and an unchanged queue. -/
theorem c7_witness :
    (List.replicate 256 (InputType.IN_CODE, "a")).length ≤ 256 ∧
    pushMany [] (List.replicate 256 (InputType.IN_CODE, "a")) =
      ((List.replicate 256 (InputType.IN_CODE, "a")).map
        (fun r => ({ type := r.1, filename := r.2 } : Input)), none) ∧
    push_input ((List.replicate 256 (InputType.IN_CODE, "a")).map
        (fun r => ({ type := r.1, filename := r.2 } : Input))) InputType.IN_TEXT "b" =
      ((List.replicate 256 (InputType.IN_CODE, "a")).map
        (fun r => ({ type := r.1, filename := r.2 } : Input)),
       some RunError.tooManyInputs) :=
  ⟨by simp,
   (c7_queue_capacity.1 (List.replicate 256 (InputType.IN_CODE, "a")) (by simp)).1,
   c7_queue_capacity.2.2 _ InputType.IN_TEXT "b" (by simp)⟩

set_option maxRecDepth 1024

/-- A successful option loop reduces the command to its pipeline body. -/
theorem command_ok (env : Env) (opts : List Opt) (positional : List String)
    (st : OptState) (h : processOpts initState opts = (st, none)) :
    command_ain_edit env opts positional = runAfterOpts env st positional := by
  unfold command_ain_edit
  rw [h]

/-- A fatal error in the option loop aborts the command with an empty
trace: no collaborator has been called yet. -/
theorem command_err (env : Env) (opts : List Opt) (positional : List String)
    (st : OptState) (e : RunError) (h : processOpts initState opts = (st, some e)) :
    command_ain_edit env opts positional = ([], some e) := by
  unfold command_ain_edit
  rw [h]

/-- The pipeline tail never fails once an image exists. -/
theorem runWithImage_snd (st : OptState) (outp : String) (pre : List Event)
    (iM iN : Int) : (runWithImage st outp pre iM iN).2 = none := by
  unfold runWithImage
  split <;> rfl

/-- Pipeline tail in transcode mode: warning when the queue is non-empty,
then the transcoder, then the write. -/
theorem runWithImage_transcode (st : OptState) (outp : String) (pre : List Event)
    (iM iN : Int) (ht : st.transcode = true) :
    runWithImage st outp pre iM iN =
      (pre ++ [Event.initMemberFunctions] ++
        (if 0 < st.inputs.length then [Event.warnInputsIgnoredTranscode] else []) ++
        [Event.ainTranscode iM iN, Event.ainWrite outp iM iN], none) := by
  unfold runWithImage
  rw [if_pos ht]

/-- Pipeline tail in edit mode: the dispatch loop over the queue in order,
then the write. -/
theorem runWithImage_edits (st : OptState) (outp : String) (pre : List Event)
    (iM iN : Int) (ht : st.transcode = false) :
    runWithImage st outp pre iM iN =
      (pre ++ [Event.initMemberFunctions] ++ st.inputs.map (dispatchEvent st.flags) ++
        [Event.ainWrite outp iM iN], none) := by
  unfold runWithImage
  rw [if_neg (by rw [ht]; exact Bool.false_ne_true)]

/-- Project mode short-circuits the pipeline: optional warning, then the
project builder, then success. -/
theorem runAfterOpts_project (env : Env) (st : OptState) (positional : List String)
    (proj : String) (hlen : positional.length ≤ 1) (hp : st.project_file = some proj) :
    runAfterOpts env st positional =
      ((if 0 < st.inputs.length then [Event.warnInputsIgnoredProject] else []) ++
        [Event.pjeBuild proj st.major_version st.minor_version], none) := by
  unfold runAfterOpts
  rw [if_neg (by omega), hp]

/-- With no positional path, a fresh image at the requested version feeds
the pipeline tail. -/
theorem runAfterOpts_new (env : Env) (st : OptState) (hp : st.project_file = none) :
    runAfterOpts env st [] =
      runWithImage st (st.output_file.getD "out.ain")
        [Event.ainNew st.major_version st.minor_version]
        st.major_version st.minor_version := by
  unfold runAfterOpts
  rw [if_neg (by simp), hp]

/-- With a positional path and a successful open, the file's stored version
feeds the pipeline tail; the requested version is not consulted. -/
theorem runAfterOpts_open_ok (env : Env) (st : OptState) (p : String) (sM sN : Int)
    (hp : st.project_file = none) (ho : env.openResult p = Except.ok (sM, sN)) :
    runAfterOpts env st [p] =
      runWithImage st (st.output_file.getD "out.ain") [Event.ainOpen p sM sN] sM sN := by
  unfold runAfterOpts
  rw [if_neg (by simp), hp]
  show openStep env st p = _
  unfold openStep
  rw [ho]

/-- With a positional path and a failing open, the run aborts with the
collaborator's diagnostic and an empty trace. -/
theorem runAfterOpts_open_err (env : Env) (st : OptState) (p : String) (msg : String)
    (hp : st.project_file = none) (ho : env.openResult p = Except.error msg) :
    runAfterOpts env st [p] = ([], some (RunError.openFailed msg)) := by
  unfold runAfterOpts
  rw [if_neg (by simp), hp]
  show openStep env st p = _
  unfold openStep
  rw [ho]

/-- The only errors the pipeline body can raise are the positional-argument
usage error and the open failure; in particular never a version error. -/
theorem runAfterOpts_error_cases (env : Env) (st : OptState) (positional : List String) :
    (runAfterOpts env st positional).2 = none ∨
    (runAfterOpts env st positional).2 = some RunError.tooManyArguments ∨
    ∃ msg, (runAfterOpts env st positional).2 = some (RunError.openFailed msg) := by
  by_cases hl : 1 < positional.length
  · unfold runAfterOpts
    rw [if_pos hl]
    right; left; rfl
  · cases hp : st.project_file with
    | some proj =>
      rw [runAfterOpts_project env st positional proj (by omega) hp]
      left; rfl
    | none =>
      cases positional with
      | nil =>
        rw [runAfterOpts_new env st hp]
        left
        exact runWithImage_snd st _ _ _ _
      | cons p rest =>
        have hrest : rest = [] := by
          simp at hl
          cases rest with
          | nil => rfl
          | cons a as => simp at hl
        subst hrest
        cases ho : env.openResult p with
        | error msg =>
          rw [runAfterOpts_open_err env st p msg hp ho]
          right; right
          exact ⟨msg, rfl⟩
        | ok v =>
          obtain ⟨sM, sN⟩ := v
          rw [runAfterOpts_open_ok env st p sM sN hp ho]
          left
          exact runWithImage_snd st _ _ _ _

/-- C2: a successfully parsed requested version with major outside [4,14]
makes the option loop fail with the unsupported-version error, a
constructor distinct from the parse error; whenever the whole run fails
with that error its trace is empty, so it fails before any container image
is created or opened; and for a requested version with major inside [4,14]
and no positional container path, a fresh empty image is created carrying
exactly the requested (major, minor) version and the run succeeds. -/
theorem c2_version_range_gate :
    (∀ (arg : List Char) (M N : Int) (st : OptState),
        parse_version arg = some (M, N) → (M < 4 ∨ M > 14) →
        processOpt st (Opt.ainVersion arg) =
          ({ st with major_version := M, minor_version := N },
            some RunError.invalidVersionRange)) ∧
    RunError.invalidVersionRange ≠ RunError.invalidVersionParse ∧
    (∀ (env : Env) (opts : List Opt) (positional : List String),
        (command_ain_edit env opts positional).2 = some RunError.invalidVersionRange →
        (command_ain_edit env opts positional).1 = []) ∧
    (∀ (env : Env) (opts : List Opt) (st : OptState),
        processOpts initState opts = (st, none) → st.project_file = none →
        4 ≤ st.major_version → st.major_version ≤ 14 →
        ((command_ain_edit env opts []).1).head? =
          some (Event.ainNew st.major_version st.minor_version) ∧
        (command_ain_edit env opts []).2 = none) := by
  refine ⟨?_, by decide, ?_, ?_⟩
  · intro arg M N st hp hout
    show processVersionOpt st arg = _
    unfold processVersionOpt
    rw [hp]
    simp [hout]
  · intro env opts positional h
    rcases hpo : processOpts initState opts with ⟨st, e⟩
    cases e with
    | none =>
      exfalso
      rw [command_ok env opts positional st hpo] at h
      rcases runAfterOpts_error_cases env st positional with h1 | h1 | ⟨msg, h1⟩ <;>
        rw [h1] at h <;> simp at h
    | some e1 =>
      rw [command_err env opts positional st e1 hpo]
  · intro env opts st hpo hproj h4 h14
    rw [command_ok env opts [] st hpo, runAfterOpts_new env st hproj]
    rcases hb : st.transcode with _ | _
    · rw [runWithImage_edits st _ _ _ _ hb]
      exact ⟨by simp, rfl⟩
    · rw [runWithImage_transcode st _ _ _ _ hb]
      exact ⟨by simp, rfl⟩

/-- C2 witness: "15" parses but is out of range and yields the
unsupported-version error; a run failing that way has an empty trace; and
a run with requested version "10" and no positional path creates a fresh
image at version (10, 0). -/
theorem c2_witness :
    processOpt initState (Opt.ainVersion ['1', '5']) =
      ({ initState with major_version := 15, minor_version := 0 },
        some RunError.invalidVersionRange) ∧
    (command_ain_edit envFail [Opt.ainVersion ['1', '5']] []).1 = [] ∧
    ((command_ain_edit envFail [Opt.ainVersion ['1', '0']] []).1).head? =
      some (Event.ainNew 10 0) :=
  ⟨c2_version_range_gate.1 ['1', '5'] 15 0 initState (by decide) (by decide),
   c2_version_range_gate.2.2.1 envFail [Opt.ainVersion ['1', '5']] [] (by decide),
   (c2_version_range_gate.2.2.2 envFail [Opt.ainVersion ['1', '0']]
      { initState with major_version := 10, minor_version := 0 }
      (by decide) (by decide) (by decide) (by decide)).1⟩

/-- C3: with the transcode flag set and a non-empty input queue (and no
project file), the full trace of the run is: image acquisition, the
member-function fix-up, the warning that the queued inputs are ignored,
the transcode, and the write — and nothing else, so no queued edit is ever
dispatched; stated both for a fresh image and for a successfully opened
container. -/
theorem c3_transcode_excludes_edits :
    ∀ (env : Env) (opts : List Opt) (st : OptState),
      processOpts initState opts = (st, none) →
      st.project_file = none → st.transcode = true → st.inputs ≠ [] →
      (command_ain_edit env opts [] =
        ([Event.ainNew st.major_version st.minor_version, Event.initMemberFunctions,
          Event.warnInputsIgnoredTranscode,
          Event.ainTranscode st.major_version st.minor_version,
          Event.ainWrite (st.output_file.getD "out.ain")
            st.major_version st.minor_version], none)) ∧
      (∀ (p : String) (sM sN : Int), env.openResult p = Except.ok (sM, sN) →
        command_ain_edit env opts [p] =
          ([Event.ainOpen p sM sN, Event.initMemberFunctions,
            Event.warnInputsIgnoredTranscode,
            Event.ainTranscode sM sN,
            Event.ainWrite (st.output_file.getD "out.ain") sM sN], none)) := by
  intro env opts st hpo hproj ht hne
  have hlen : 0 < st.inputs.length := List.length_pos.mpr hne
  constructor
  · rw [command_ok env opts [] st hpo, runAfterOpts_new env st hproj,
      runWithImage_transcode st _ _ _ _ ht, if_pos hlen]
    simp
  · intro p sM sN ho
    rw [command_ok env opts [p] st hpo, runAfterOpts_open_ok env st p sM sN hproj ho,
      runWithImage_transcode st _ _ _ _ ht, if_pos hlen]
    simp

/-- C3 witness: a concrete run with `--transcode UTF-8` and one queued
code input emits the warning, transcodes and writes, dispatching nothing,
both on a fresh image and on an opened container of stored version 8.2. -/
theorem c3_witness :
    command_ain_edit envOk [Opt.transcodeOpt "UTF-8", Opt.code "a.jam"] [] =
      ([Event.ainNew 4 0, Event.initMemberFunctions,
        Event.warnInputsIgnoredTranscode, Event.ainTranscode 4 0,
        Event.ainWrite "out.ain" 4 0], none) ∧
    command_ain_edit envOk [Opt.transcodeOpt "UTF-8", Opt.code "a.jam"] ["in.ain"] =
      ([Event.ainOpen "in.ain" 8 2, Event.initMemberFunctions,
        Event.warnInputsIgnoredTranscode, Event.ainTranscode 8 2,
        Event.ainWrite "out.ain" 8 2], none) :=
  ⟨(c3_transcode_excludes_edits envOk [Opt.transcodeOpt "UTF-8", Opt.code "a.jam"]
      { project_file := none, output_file := none, major_version := 4, minor_version := 0,
        transcode := true, flags := 0,
        inputs := [{ type := InputType.IN_CODE, filename := "a.jam" }],
        input_encoding := "CP932", output_encoding := "UTF-8", silent := false }
      (by decide) (by decide) (by decide) (by decide)).1,
   (c3_transcode_excludes_edits envOk [Opt.transcodeOpt "UTF-8", Opt.code "a.jam"]
      { project_file := none, output_file := none, major_version := 4, minor_version := 0,
        transcode := true, flags := 0,
        inputs := [{ type := InputType.IN_CODE, filename := "a.jam" }],
        input_encoding := "CP932", output_encoding := "UTF-8", silent := false }
      (by decide) (by decide) (by decide) (by decide)).2 "in.ain" 8 2 rfl⟩

/-- C4 counterexample: the claim says a run with the transcode flag set and
no positional container path fails.  It does not: with `--transcode UTF-8`
and no positional argument the run creates a fresh empty image at the
default version 4.0, transcodes it, writes it to the default output path
and succeeds (error component `none`). -/
theorem c4_counterexample :
    command_ain_edit envFail [Opt.transcodeOpt "UTF-8"] [] =
      ([Event.ainNew 4 0, Event.initMemberFunctions, Event.ainTranscode 4 0,
        Event.ainWrite "out.ain" 4 0], none) := by
  rfl

/-- C4 (amended): for a run with the transcode flag set and no positional
container path (and no project file), the run does not fail: a fresh empty
image is created at the requested version, transcoded, and written to the
output path — with the ignored-inputs warning exactly when edit inputs
were also queued. -/
theorem c4_transcode_without_container_amended :
    ∀ (env : Env) (opts : List Opt) (st : OptState),
      processOpts initState opts = (st, none) →
      st.project_file = none → st.transcode = true →
      command_ain_edit env opts [] =
        ([Event.ainNew st.major_version st.minor_version, Event.initMemberFunctions] ++
          (if 0 < st.inputs.length then [Event.warnInputsIgnoredTranscode] else []) ++
          [Event.ainTranscode st.major_version st.minor_version,
           Event.ainWrite (st.output_file.getD "out.ain")
             st.major_version st.minor_version], none) := by
  intro env opts st hpo hproj ht
  rw [command_ok env opts [] st hpo, runAfterOpts_new env st hproj,
    runWithImage_transcode st _ _ _ _ ht]
  simp

/-- C4 witness: the amended theorem applied to the concrete run with only
`--transcode UTF-8`: fresh image at 4.0, transcode, write, success. -/
theorem c4_witness :
    command_ain_edit envFail [Opt.transcodeOpt "UTF-8"] [] =
      ([Event.ainNew 4 0, Event.initMemberFunctions] ++ ([] : List Event) ++
        [Event.ainTranscode 4 0, Event.ainWrite "out.ain" 4 0], none) :=
  c4_transcode_without_container_amended envFail [Opt.transcodeOpt "UTF-8"]
    { initState with transcode := true, input_encoding := "CP932", output_encoding := "UTF-8" }
    (by decide) (by decide) (by decide)

/-- C5: in project mode (a project file was given) with at most one
positional argument, the whole trace is the optional ignored-inputs
warning followed by the hand-off to the external project builder with the
requested (major, minor) version, and the run returns success — no image
is created or opened, nothing is dispatched, transcoded or written. -/
theorem c5_project_mode :
    ∀ (env : Env) (opts : List Opt) (positional : List String) (st : OptState)
      (proj : String),
      processOpts initState opts = (st, none) →
      st.project_file = some proj → positional.length ≤ 1 →
      command_ain_edit env opts positional =
        ((if 0 < st.inputs.length then [Event.warnInputsIgnoredProject] else []) ++
          [Event.pjeBuild proj st.major_version st.minor_version], none) := by
  intro env opts positional st proj hpo hp hlen
  rw [command_ok env opts positional st hpo,
    runAfterOpts_project env st positional proj hlen hp]

/-- C5 witness: a concrete project-mode run with one queued input warns and
hands off to the project builder with the default version 4.0. -/
theorem c5_witness :
    command_ain_edit envFail [Opt.project "p.pje", Opt.code "a.jam"] [] =
      ([Event.warnInputsIgnoredProject, Event.pjeBuild "p.pje" 4 0], none) :=
  c5_project_mode envFail [Opt.project "p.pje", Opt.code "a.jam"] []
    { project_file := some "p.pje", output_file := none, major_version := 4,
      minor_version := 0, transcode := false, flags := 0,
      inputs := [{ type := InputType.IN_CODE, filename := "a.jam" }],
      input_encoding := "UTF-8", output_encoding := "CP932", silent := false }
    "p.pje" (by decide) (by decide) (by decide)

/-- C6: in edit mode (no project file, no transcode flag), the full trace
is image acquisition, the member-function fix-up, then exactly one
collaborator call per queued request, in queue order, routed by kind via
`dispatchEvent` (assembler with the flags word, compiler, declaration
merger, text-table merger), and the write only after all of them; stated
both for a fresh image and for a successfully opened container. -/
theorem c6_dispatch_in_order :
    ∀ (env : Env) (opts : List Opt) (st : OptState),
      processOpts initState opts = (st, none) →
      st.project_file = none → st.transcode = false →
      (command_ain_edit env opts [] =
        ([Event.ainNew st.major_version st.minor_version, Event.initMemberFunctions] ++
          st.inputs.map (dispatchEvent st.flags) ++
          [Event.ainWrite (st.output_file.getD "out.ain")
            st.major_version st.minor_version], none)) ∧
      (∀ (p : String) (sM sN : Int), env.openResult p = Except.ok (sM, sN) →
        command_ain_edit env opts [p] =
          ([Event.ainOpen p sM sN, Event.initMemberFunctions] ++
            st.inputs.map (dispatchEvent st.flags) ++
            [Event.ainWrite (st.output_file.getD "out.ain") sM sN], none)) := by
  intro env opts st hpo hproj ht
  constructor
  · rw [command_ok env opts [] st hpo, runAfterOpts_new env st hproj,
      runWithImage_edits st _ _ _ _ ht]
    simp
  · intro p sM sN ho
    rw [command_ok env opts [p] st hpo, runAfterOpts_open_ok env st p sM sN hproj ho,
      runWithImage_edits st _ _ _ _ ht]
    simp

/-- C6 witness: three queued requests of different kinds are dispatched in
submission order — assembler (with flags 0), declaration merger, text-table
merger — and the write happens after all of them. -/
theorem c6_witness :
    command_ain_edit envOk [Opt.code "a.jam", Opt.json "d.json", Opt.text "t.po"] [] =
      ([Event.ainNew 4 0, Event.initMemberFunctions] ++
        ([{ type := InputType.IN_CODE, filename := "a.jam" },
          { type := InputType.IN_DECL, filename := "d.json" },
          { type := InputType.IN_TEXT, filename := "t.po" }] : List Input).map
          (dispatchEvent 0) ++
        [Event.ainWrite "out.ain" 4 0], none) :=
  (c6_dispatch_in_order envOk [Opt.code "a.jam", Opt.json "d.json", Opt.text "t.po"]
    { project_file := none, output_file := none, major_version := 4, minor_version := 0,
      transcode := false, flags := 0,
      inputs := [{ type := InputType.IN_CODE, filename := "a.jam" },
        { type := InputType.IN_DECL, filename := "d.json" },
        { type := InputType.IN_TEXT, filename := "t.po" }],
      input_encoding := "UTF-8", output_encoding := "CP932", silent := false }
    (by decide) (by decide) (by decide)).1

/-- C8: when a positional container path is given (and no project file),
the requested version is ignored — the run's outcome is unchanged by any
modification of the requested (major, minor); on a successful open the
trace starts by opening the file at its own stored version and ends by
writing that same stored version; on reader failure the run aborts with a
fatal open error carrying the collaborator's diagnostic and an empty
trace, so nothing is written. -/
theorem c8_open_uses_stored_version :
    (∀ (env : Env) (st : OptState) (M2 N2 : Int) (p : String) (rest : List String),
        st.project_file = none →
        runAfterOpts env { st with major_version := M2, minor_version := N2 } (p :: rest) =
          runAfterOpts env st (p :: rest)) ∧
    (∀ (env : Env) (opts : List Opt) (st : OptState) (p : String) (sM sN : Int),
        processOpts initState opts = (st, none) → st.project_file = none →
        env.openResult p = Except.ok (sM, sN) →
        ∃ mid, command_ain_edit env opts [p] =
          ([Event.ainOpen p sM sN] ++ mid ++
            [Event.ainWrite (st.output_file.getD "out.ain") sM sN], none)) ∧
    (∀ (env : Env) (opts : List Opt) (st : OptState) (p : String) (msg : String),
        processOpts initState opts = (st, none) → st.project_file = none →
        env.openResult p = Except.error msg →
        command_ain_edit env opts [p] = ([], some (RunError.openFailed msg))) := by
  refine ⟨?_, ?_, ?_⟩
  · intro env st M2 N2 p rest hp
    cases rest with
    | cons b bs =>
      unfold runAfterOpts
      have h2 : 1 < (p :: b :: bs).length := by
        simp
      rw [if_pos h2, if_pos h2]
    | nil =>
      cases ho : env.openResult p with
      | error msg =>
        rw [runAfterOpts_open_err env { st with major_version := M2, minor_version := N2 } p msg hp ho,
          runAfterOpts_open_err env st p msg hp ho]
      | ok v =>
        obtain ⟨sM, sN⟩ := v
        rw [runAfterOpts_open_ok env { st with major_version := M2, minor_version := N2 } p sM sN hp ho,
          runAfterOpts_open_ok env st p sM sN hp ho]
        rfl
  · intro env opts st p sM sN hpo hp ho
    rw [command_ok env opts [p] st hpo, runAfterOpts_open_ok env st p sM sN hp ho]
    rcases hb : st.transcode with _ | _
    · rw [runWithImage_edits st _ _ _ _ hb]
      exact ⟨[Event.initMemberFunctions] ++ st.inputs.map (dispatchEvent st.flags),
        by simp⟩
    · rw [runWithImage_transcode st _ _ _ _ hb]
      exact ⟨[Event.initMemberFunctions] ++
        (if 0 < st.inputs.length then [Event.warnInputsIgnoredTranscode] else []) ++
        [Event.ainTranscode sM sN], by simp⟩
  · intro env opts st p msg hpo hp ho
    rw [command_ok env opts [p] st hpo, runAfterOpts_open_err env st p msg hp ho]

/-- C8 witness: with a positional path, requesting version 13.1 instead of
the default changes nothing; opening a container with stored version 8.2
opens and writes 8.2; a failing open aborts with the reader's diagnostic
and writes nothing. -/
theorem c8_witness :
    runAfterOpts envOk { initState with major_version := 13, minor_version := 1 } ["in.ain"] =
      runAfterOpts envOk initState ["in.ain"] ∧
    (∃ mid, command_ain_edit envOk [] ["in.ain"] =
      ([Event.ainOpen "in.ain" 8 2] ++ mid ++ [Event.ainWrite "out.ain" 8 2], none)) ∧
    command_ain_edit envFail [] ["x.ain"] =
      ([], some (RunError.openFailed "invalid ain file")) :=
  ⟨c8_open_uses_stored_version.1 envOk initState 13 1 "in.ain" [] rfl,
   c8_open_uses_stored_version.2.1 envOk [] initState "in.ain" 8 2 rfl rfl rfl,
   c8_open_uses_stored_version.2.2 envFail [] initState "x.ain" "invalid ain file"
     rfl rfl rfl⟩

/-- C9: when both a project file and the transcode flag are supplied,
project mode wins: the whole trace is the optional ignored-inputs warning
followed by the project-builder hand-off, so transcoding never occurs and
no transcode-related warning is emitted; with an empty queue the trace is
the bare project-builder call, with no warning at all. -/
theorem c9_project_precedence :
    ∀ (env : Env) (opts : List Opt) (positional : List String) (st : OptState)
      (proj : String),
      processOpts initState opts = (st, none) →
      st.project_file = some proj → st.transcode = true → positional.length ≤ 1 →
      command_ain_edit env opts positional =
        ((if 0 < st.inputs.length then [Event.warnInputsIgnoredProject] else []) ++
          [Event.pjeBuild proj st.major_version st.minor_version], none) ∧
      (∀ M N : Int, Event.ainTranscode M N ∉ (command_ain_edit env opts positional).1) ∧
      Event.warnInputsIgnoredTranscode ∉ (command_ain_edit env opts positional).1 ∧
      (st.inputs = [] →
        (command_ain_edit env opts positional).1 =
          [Event.pjeBuild proj st.major_version st.minor_version]) := by
  intro env opts positional st proj hpo hp ht hlen
  have hc : command_ain_edit env opts positional =
      ((if 0 < st.inputs.length then [Event.warnInputsIgnoredProject] else []) ++
        [Event.pjeBuild proj st.major_version st.minor_version], none) := by
    rw [command_ok env opts positional st hpo,
      runAfterOpts_project env st positional proj hlen hp]
  refine ⟨hc, ?_, ?_, ?_⟩
  · intro M N hmem
    rw [hc] at hmem
    by_cases hi : 0 < st.inputs.length <;> simp [hi] at hmem
  · intro hmem
    rw [hc] at hmem
    by_cases hi : 0 < st.inputs.length <;> simp [hi] at hmem
  · intro hin
    rw [hc]
    simp [hin]

/-- C9 witness: a concrete run with both `--project` and `--transcode` and
no queued inputs only calls the project builder — no transcode event, no
warning. -/
theorem c9_witness :
    command_ain_edit envFail [Opt.project "p.pje", Opt.transcodeOpt "UTF-8"] [] =
      (([] : List Event) ++ [Event.pjeBuild "p.pje" 4 0], none) ∧
    (command_ain_edit envFail [Opt.project "p.pje", Opt.transcodeOpt "UTF-8"] []).1 =
      [Event.pjeBuild "p.pje" 4 0] :=
  ⟨(c9_project_precedence envFail [Opt.project "p.pje", Opt.transcodeOpt "UTF-8"] []
      { initState with project_file := some "p.pje", transcode := true, input_encoding := "CP932", output_encoding := "UTF-8" }
      "p.pje" (by decide) (by decide) (by decide) (by decide)).1,
   (c9_project_precedence envFail [Opt.project "p.pje", Opt.transcodeOpt "UTF-8"] []
      { initState with project_file := some "p.pje", transcode := true, input_encoding := "CP932", output_encoding := "UTF-8" }
      "p.pje" (by decide) (by decide) (by decide) (by decide)).2.2.2 (by decide)⟩
